import Mathlib

/-!
Shallow embedding of the redns caching DNS lookup library (`lib/redns.js`).

Times are modelled as natural numbers (milliseconds); JavaScript `Infinity`
values (unbounded `maxTTL`, unknown record TTLs) live in `ENat`.  The cache
`Map` is an association list from key strings to a tagged slot: an in-flight
marker holding the coalesced waiters, or a resolved `Entry`.  Fallible code
(array indexing inside `Entry.prototype.use`) returns `Option`.
-/

set_option linter.unusedVariables false

namespace Redns

/-- A record as produced by `_resolve`'s `onResults` mapping:
address, TTL in seconds (`⊤` models JavaScript `Infinity`) and family. -/
structure RawRecord where
  address : String
  ttl : ENat
  family : Nat
  deriving DecidableEq

/-- A raw result element handed to `onResults` by the resolution primitive:
either a bare address string (no TTL information) or an object with a TTL. -/
inductive RawResult where
  | plainStr (address : String)
  | withTTL (address : String) (ttl : ENat)
  deriving DecidableEq

/-- The mapping of one upstream result performed inside `_resolve`'s
`onResults`: a plain string gets an infinite TTL, and on a legacy runtime
(no TTL support) the TTL is also treated as infinite. -/
def mapResult (isLegacy : Bool) (family : Nat) : RawResult → RawRecord
  | .plainStr a => ⟨a, ⊤, family⟩
  | .withTTL a t => if isLegacy then ⟨a, ⊤, family⟩ else ⟨a, t, family⟩

/-- A cached record as stored in an `Entry` by `onresult`'s unification:
address, absolute expiry time, family. -/
structure Record where
  address : String
  expiresAt : ENat
  family : Nat
  deriving DecidableEq

/-- The per-record unification in `lookup`'s `onresult`:
`expiresAt = now + Math.min(maxTTL, ttl) * 1000` and
`family: family || record.family` (0 is falsy). -/
def unifyRecord (maxTTL : ENat) (family : Nat) (now : Nat) (r : RawRecord) : Record :=
  ⟨r.address, (now : ENat) + min maxTTL r.ttl * 1000,
    if family = 0 then r.family else family⟩

/-- `Entry`: rotation cursor plus the record list (constructor sets `index = 0`). -/
structure Entry where
  index : Nat
  records : List Record
  deriving DecidableEq

/-- Outcome of `Entry.prototype.use` as observed through its callback:
`expiredAll` models the `return false` path, `single` the
`callback(null, results[0].address, results[0].family)` call, `multi` the
`callback(null, results)` call. -/
inductive UseResult where
  | expiredAll
  | single (address : String) (family : Nat)
  | multi (records : List Record)
  deriving DecidableEq

/-- The do/while scan loop of `Entry.prototype.use`, with explicit fuel.
One recursive step is one loop iteration: read `records[idx]`, advance the
cursor modulo the length, collect the record if unexpired (breaking in
single mode), and stop when the cursor returns to `start`.  `none` means the
loop could not finish within `fuel` iterations — in particular indexing an
empty `records` array is undefined, so the body can never complete. -/
def useScan (records : List Record) (now : Nat) (all : Bool) (start : Nat) :
    Nat → Nat → List Record → Option (List Record × Nat)
  | 0, _, _ => none
  | fuel + 1, idx, acc =>
    match records[idx]? with
    | none => none
    | some record =>
      let idx2 := (idx + 1) % records.length
      if (now : ENat) < record.expiresAt then
        if all then
          if idx2 = start then some (acc ++ [record], idx2)
          else useScan records now all start fuel idx2 (acc ++ [record])
        else some (acc ++ [record], idx2)
      else
        if idx2 = start then some (acc, idx2)
        else useScan records now all start fuel idx2 acc

/-- `Entry.prototype.use`: reset the cursor in `all` mode, run the circular
scan (one full lap of fuel suffices for any well-formed entry), then either
report `false` (everything expired) or schedule the callback with the
collected results.  The updated cursor is written back into the entry,
modelling the in-place mutation of `this.index`. -/
def Entry.use (e : Entry) (all : Bool) (now : Nat) : Option (UseResult × Entry) :=
  match useScan e.records now all (if all then 0 else e.index) e.records.length
      (if all then 0 else e.index) [] with
  | none => none
  | some (results, idx2) =>
    match results with
    | [] => some (.expiredAll, ⟨idx2, e.records⟩)
    | r :: rest =>
      if all then some (.multi (r :: rest), ⟨idx2, e.records⟩)
      else some (.single r.address r.family, ⟨idx2, e.records⟩)

/-- Addresses visible to the callback for a given `use` outcome. -/
def resultAddresses : UseResult → List String
  | .expiredAll => []
  | .single a _ => [a]
  | .multi rs => rs.map Record.address

/-- A JavaScript value in the `family` position: a number, or any
non-numeric value (which `>>> 0` coerces to 0). -/
inductive JSVal where
  | num (n : Int)
  | nonNum
  deriving DecidableEq

/-- The `>>> 0` (unsigned 32-bit) coercion applied to `options.family` /
bare `options`. -/
def toUint32 : JSVal → Nat
  | .num n => (n % (2 ^ 32 : Int)).toNat
  | .nonNum => 0

/-- The `options` argument of `lookup`: a function (callback moved over,
family 0, all false), an object (`family >>> 0`, `all === true`), or a bare
value (`options >>> 0`). -/
inductive JSOptions where
  | func
  | obj (family : JSVal) (all : Bool)
  | bare (v : JSVal)
  deriving DecidableEq

/-- The argument normalisation at the top of `lookup`. -/
def parseOpts : JSOptions → Nat × Bool
  | .func => (0, false)
  | .obj f a => (toUint32 f, a)
  | .bare v => (toUint32 v, false)

/-- The cache key: `hostname + ':' + family + ':' + ':' + all`
(note the doubled colon in the source). -/
def mkKey (hostname : String) (family : Nat) (all : Bool) : String :=
  hostname ++ ":" ++ toString family ++ ":" ++ ":" ++ (if all then "true" else "false")

/-- Constructor options with their defaults (`maxTTL` defaults to `Infinity`). -/
structure Options where
  preferV4 : Bool
  retries : Nat
  timeout : Nat
  incrementalTimeout : Bool
  maxTTL : ENat
  deriving DecidableEq

/-- The defaults installed by the `ReDNS` constructor. -/
def defaultOptions : Options := ⟨true, 8, 100, true, ⊤⟩

/-- One coalesced waiter: the continuation pushed into `merged`, identified
by its caller and carrying that caller's original `options` argument. -/
structure Waiter where
  caller : Nat
  options : JSOptions
  deriving DecidableEq

/-- A cache slot: the in-flight marker function (holding the waiters pushed
into `merged`) or a resolved `Entry`.  This is the tagged-variant reading of
the source's `typeof entry === 'function'` test. -/
inductive Slot where
  | inflight (waiters : List Waiter)
  | resolved (entry : Entry)
  deriving DecidableEq

/-- The cache `Map`, as an association list with unique keys. -/
abbrev Cache := List (String × Slot)

/-- `Map.prototype.get`. -/
def cacheFind : Cache → String → Option Slot
  | [], _ => none
  | (k2, s2) :: rest, k => if k2 = k then some s2 else cacheFind rest k

/-- `Map.prototype.set`: replace in place or append. -/
def cacheSet : Cache → String → Slot → Cache
  | [], k, s => [(k, s)]
  | (k2, s2) :: rest, k, s =>
    if k2 = k then (k, s) :: rest else (k2, s2) :: cacheSet rest k s

/-- `Map.prototype.delete`. -/
def cacheDelete : Cache → String → Cache
  | [], _ => []
  | (k2, s2) :: rest, k =>
    if k2 = k then cacheDelete rest k else (k2, s2) :: cacheDelete rest k

/-- What one `lookup` call does besides updating the cache. -/
inductive LookupAction where
  | registerWaiter
  | serve (r : UseResult)
  | dispatch (family : Nat)
  | fallbackCall
  deriving DecidableEq

/-- The miss path of `lookup`: the in-flight marker is installed first, and
only then is the family dispatched — the unsupported-family branch calls the
plain fallback `dnsLookup` with the marker already in the cache. -/
def missPath (cache : Cache) (key : String) (family : Nat) : Cache × LookupAction :=
  let c2 := cacheSet cache key (.inflight [])
  if family = 0 ∨ family = 4 ∨ family = 6 then (c2, .dispatch family)
  else (c2, .fallbackCall)

/-- `ReDNS.prototype.lookup` up to the point where it either answers from
the cache, registers on an in-flight marker, or dispatches a resolution /
fallback.  `none` models the crash of `Entry.use` on an empty record list. -/
def lookup (cache : Cache) (hostname : String) (options : JSOptions)
    (caller : Nat) (now : Nat) : Option (Cache × LookupAction) :=
  let pa := parseOpts options
  let key := mkKey hostname pa.1 pa.2
  match cacheFind cache key with
  | some (.inflight ws) =>
    some (cacheSet cache key (.inflight (ws ++ [⟨caller, options⟩])), .registerWaiter)
  | some (.resolved e) =>
    match Entry.use e pa.2 now with
    | none => none
    | some (.expiredAll, _) => some (missPath (cacheDelete cache key) key pa.1)
    | some (r, e2) => some (cacheSet cache key (.resolved e2), .serve r)
  | none => some (missPath cache key pa.1)

/-- A delivery observed by some caller when a resolution settles. -/
inductive Delivery where
  | ok (caller : Nat) (r : UseResult)
  | err (caller : Nat) (msg : String)
  | viaFallback (caller : Nat)
  | newDispatch (caller : Nat) (family : Nat)
  | reRegistered (caller : Nat)
  | crashed (caller : Nat)
  deriving DecidableEq

/-- How a waiter's re-executed `lookup` surfaces to that waiter. -/
def actionToDelivery (caller : Nat) : LookupAction → Delivery
  | .registerWaiter => .reRegistered caller
  | .serve r => .ok caller r
  | .dispatch f => .newDispatch caller f
  | .fallbackCall => .viaFallback caller

/-- `merged.forEach(fn => fn())`: each waiter re-executes its `lookup`
against the current cache, in registration order. -/
def runWaiters (hostname : String) (now : Nat) :
    Cache → List Waiter → Cache × List Delivery
  | cache, [] => (cache, [])
  | cache, w :: ws =>
    match lookup cache hostname w.options w.caller now with
    | none =>
      let rest := runWaiters hostname now cache ws
      (rest.1, .crashed w.caller :: rest.2)
    | some (c2, act) =>
      let rest := runWaiters hostname now c2 ws
      (rest.1, actionToDelivery w.caller act :: rest.2)

/-- What the dispatched resolution hands to `onresult`. -/
inductive RInput where
  | fail (msg : String)
  | ok (records : List RawRecord)
  deriving DecidableEq

/-- The `onresult` closure inside `lookup`.  On error it only invokes the
triggering caller's callback — the early `return callback(err)` skips both
the cache cleanup and the `merged.forEach` loop, so the in-flight marker
stays in the cache and no waiter is notified.  On success it unifies the
records, builds an `Entry`, serves the caller through `Entry.use`, stores
the entry (or deletes the key and falls back when nothing is usable), and
then releases every waiter. -/
def onresult (opts : Options) (cache : Cache) (hostname : String)
    (options : JSOptions) (caller : Nat) (now : Nat) (input : RInput) :
    Option (Cache × List Delivery) :=
  let pa := parseOpts options
  let key := mkKey hostname pa.1 pa.2
  match input with
  | .fail msg => some (cache, [.err caller msg])
  | .ok records =>
    let ws := match cacheFind cache key with
      | some (.inflight l) => l
      | _ => []
    let unified := records.map (unifyRecord opts.maxTTL pa.1 now)
    let entry : Entry := ⟨0, unified⟩
    match Entry.use entry pa.2 now with
    | none => none
    | some (.expiredAll, _) =>
      let c1 := cacheDelete cache key
      let rest := runWaiters hostname now c1 ws
      some (rest.1, .viaFallback caller :: rest.2)
    | some (r, e2) =>
      let c1 := cacheSet cache key (.resolved e2)
      let rest := runWaiters hostname now c1 ws
      some (rest.1, .ok caller r :: rest.2)

/-- The per-family outcome of one branch inside `_resolveBoth`, before the
`wrap` adapter is applied. -/
inductive ROutcome where
  | ok (records : List RawRecord)
  | errNoData
  | errOther (msg : String)
  deriving DecidableEq

/-- The `wrap` adapter of `_resolveBoth`: an `ENODATA` error becomes an
empty result list, anything else passes through. -/
def wrap : ROutcome → Except String (List RawRecord)
  | .ok rs => .ok rs
  | .errNoData => .ok []
  | .errOther m => .error m

/-- The merge step of `ReDNS.prototype._resolveBoth`: fail if either wrapped
branch failed, fail with `'No DNS query results'` if both are empty,
otherwise return only the A records when `!all && preferV4` and some exist,
else A records followed by AAAA records. -/
def resolveBoth (preferV4 : Bool) (all : Bool) (ra raaaa : ROutcome) :
    Except String (List RawRecord) :=
  match wrap ra, wrap raaaa with
  | .error m, _ => .error m
  | .ok _, .error m => .error m
  | .ok a, .ok b =>
    if a.length = 0 ∧ b.length = 0 then .error "No DNS query results"
    else if all = false ∧ preferV4 = true ∧ a.length ≠ 0 then .ok a
    else .ok (a ++ b)

/-- The addresses of a raw result list. -/
def rawAddresses (rs : List RawRecord) : List String :=
  rs.map RawRecord.address

/-- Fallback record used only as the `getD` default in specifications. -/
def defaultRecord : Record := ⟨"", 0, 0⟩

/-- The address stored `j` positions after cursor position `i`, cyclically. -/
def addrAt (l : List Record) (i j : Nat) : String :=
  (l.getD ((i + j) % l.length) defaultRecord).address

/-- Repeated single-mode (`!all`) calls to `Entry.use` at the given times,
collecting the addresses served to the callbacks and threading the mutated
entry from one call to the next. -/
def useRun : Entry → List Nat → Option (List String × Entry)
  | e, [] => some ([], e)
  | e, t :: ts =>
    match Entry.use e false t with
    | some (.single a f, e2) =>
      match useRun e2 ts with
      | some (as, e3) => some (a :: as, e3)
      | none => none
    | _ => none

/-- The timeout used by each successive attempt of one `_resolve` call whose
upstream never responds: the mutable `timeout` starts at the configured
value and is doubled after every timed-out attempt when `incrementalTimeout`
is set (`timeout *= 2` inside the timer callback). -/
def retrySchedule (t : Nat) (incr : Bool) : Nat → List Nat
  | 0 => []
  | n + 1 => t :: retrySchedule (if incr then 2 * t else t) incr n

/-- `ReDNS.prototype._resolve` under a never-responding upstream: every one
of the `retries` attempts times out (with the escalating schedule above) and
`async.retry` surfaces the last attempt's error `'DNS query timed out'`. -/
def resolveNeverResponds (opts : Options) : List Nat × Except String (List RawRecord) :=
  (retrySchedule opts.timeout opts.incrementalTimeout opts.retries,
    .error "DNS query timed out")

/-! ### Lemmas about the `Entry.use` scan loop -/

/-- On an empty record list the loop body can never complete: the very first
array access is undefined, whatever the fuel. -/
theorem useScan_nil (now : Nat) (all : Bool) (start fuel idx : Nat) (acc : List Record) :
    useScan [] now all start fuel idx acc = none := by
  cases fuel with
  | zero => rfl
  | succ n => simp [useScan]

/-- Termination of the scan within one full lap: starting `j` iterations
before the wrap-around point, `j` units of fuel suffice. -/
theorem useScan_lap (l : List Record) (now : Nat) (all : Bool) (start : Nat)
    (hs : start < l.length) :
    ∀ j, 1 ≤ j → j ≤ l.length → ∀ acc,
      ∃ out, useScan l now all start j ((start + (l.length - j)) % l.length) acc
        = some out := by
  intro j
  induction j with
  | zero => intro h1; exact absurd h1 (by omega)
  | succ n ih =>
    intro h1 h2 acc
    have hlen : 0 < l.length := Nat.lt_of_le_of_lt (Nat.zero_le _) hs
    have hidx : (start + (l.length - (n + 1))) % l.length < l.length := Nat.mod_lt _ hlen
    have hstep : ((start + (l.length - (n + 1))) % l.length + 1) % l.length
        = (start + (l.length - n)) % l.length := by
      rw [Nat.mod_add_mod]
      congr 1
      omega
    have hzero : n = 0 →
        ((start + (l.length - (n + 1))) % l.length + 1) % l.length = start := by
      intro h0
      rw [hstep, h0, Nat.sub_zero, Nat.add_mod_right, Nat.mod_eq_of_lt hs]
    simp only [useScan, List.getElem?_eq_getElem hidx]
    split_ifs with hfresh hall heq heq
    · exact ⟨_, rfl⟩
    · rcases Nat.eq_zero_or_pos n with h0 | hpos
      · exact absurd (hzero h0) heq
      · rw [hstep]
        exact ih hpos (by omega) _
    · exact ⟨_, rfl⟩
    · exact ⟨_, rfl⟩
    · rcases Nat.eq_zero_or_pos n with h0 | hpos
      · exact absurd (hzero h0) heq
      · rw [hstep]
        exact ih hpos (by omega) _

/-- When every record is expired the lap collects nothing and the cursor
comes back to `start`. -/
theorem useScan_expired (l : List Record) (now : Nat) (all : Bool) (start : Nat)
    (hs : start < l.length) (hexp : ∀ r ∈ l, r.expiresAt ≤ (now : ENat)) :
    ∀ j, 1 ≤ j → j ≤ l.length → ∀ acc,
      useScan l now all start j ((start + (l.length - j)) % l.length) acc
        = some (acc, start) := by
  intro j
  induction j with
  | zero => intro h1; exact absurd h1 (by omega)
  | succ n ih =>
    intro h1 h2 acc
    have hlen : 0 < l.length := Nat.lt_of_le_of_lt (Nat.zero_le _) hs
    have hidx : (start + (l.length - (n + 1))) % l.length < l.length := Nat.mod_lt _ hlen
    have hstep : ((start + (l.length - (n + 1))) % l.length + 1) % l.length
        = (start + (l.length - n)) % l.length := by
      rw [Nat.mod_add_mod]
      congr 1
      omega
    have hzero : n = 0 →
        ((start + (l.length - (n + 1))) % l.length + 1) % l.length = start := by
      intro h0
      rw [hstep, h0, Nat.sub_zero, Nat.add_mod_right, Nat.mod_eq_of_lt hs]
    have hnf : ¬ ((now : ENat) < l[(start + (l.length - (n + 1))) % l.length].expiresAt) :=
      not_lt.mpr (hexp _ (List.getElem_mem hidx))
    simp only [useScan, List.getElem?_eq_getElem hidx]
    rw [if_neg hnf]
    split_ifs with heq
    · rw [heq]
    · rcases Nat.eq_zero_or_pos n with h0 | hpos
      · exact absurd (hzero h0) heq
      · rw [hstep]
        exact ih hpos (by omega) _

/-- In single mode an unexpired record under the cursor is returned at once:
the loop breaks after exactly one iteration. -/
theorem useScan_fresh_step (l : List Record) (now : Nat) (start : Nat)
    (hs : start < l.length) (hfresh : (now : ENat) < l[start].expiresAt)
    (fuel : Nat) (acc : List Record) :
    useScan l now false start (fuel + 1) start acc
      = some (acc ++ [l[start]], (start + 1) % l.length) := by
  simp only [useScan, List.getElem?_eq_getElem hs]
  rw [if_pos hfresh]
  rfl

/-- In `all` mode with every record unexpired, the lap starting at 0 collects
the whole suffix it still has to traverse and ends back at 0. -/
theorem useScan_fresh_all (l : List Record) (now : Nat)
    (hfresh : ∀ r ∈ l, (now : ENat) < r.expiresAt) :
    ∀ j, 1 ≤ j → j ≤ l.length → ∀ acc,
      useScan l now true 0 j (l.length - j) acc
        = some (acc ++ l.drop (l.length - j), 0) := by
  intro j
  induction j with
  | zero => intro h1; exact absurd h1 (by omega)
  | succ n ih =>
    intro h1 h2 acc
    have hlen : 0 < l.length := by omega
    have hidx : l.length - (n + 1) < l.length := by omega
    have hf : (now : ENat) < l[l.length - (n + 1)].expiresAt :=
      hfresh _ (List.getElem_mem hidx)
    have hdrop : l.drop (l.length - (n + 1))
        = l[l.length - (n + 1)] :: l.drop (l.length - (n + 1) + 1) :=
      List.drop_eq_getElem_cons hidx
    simp only [useScan, List.getElem?_eq_getElem hidx]
    rw [if_pos hf]
    simp only [ite_true]
    rcases Nat.eq_zero_or_pos n with h0 | hpos
    · subst h0
      have hl2 : l.length - (0 + 1) + 1 = l.length := by omega
      have heq : (l.length - (0 + 1) + 1) % l.length = 0 := by
        rw [hl2, Nat.mod_self]
      rw [if_pos heq, heq, hdrop, hl2, List.drop_length]
    · have hlt : l.length - (n + 1) + 1 < l.length := by omega
      have hne : (l.length - (n + 1) + 1) % l.length ≠ 0 := by
        rw [Nat.mod_eq_of_lt hlt]
        omega
      have harg : (l.length - (n + 1) + 1) % l.length = l.length - n := by
        rw [Nat.mod_eq_of_lt hlt]
        omega
      rw [if_neg hne, harg, ih hpos (by omega) (acc ++ [l[l.length - (n + 1)]]), hdrop]
      have hl3 : l.length - (n + 1) + 1 = l.length - n := by omega
      rw [hl3, List.append_assoc]
      rfl

/-- `Entry.use` on a well-formed entry whose records are all expired:
it reports `false` (everything expired) and the cursor ends where the lap
started. -/
theorem use_expired (e : Entry) (all : Bool) (now : Nat)
    (hne : e.records ≠ []) (hidx : e.index < e.records.length)
    (hexp : ∀ r ∈ e.records, r.expiresAt ≤ (now : ENat)) :
    Entry.use e all now
      = some (.expiredAll, ⟨if all then 0 else e.index, e.records⟩) := by
  have hlen : 0 < e.records.length := List.length_pos.mpr hne
  have hs : (if all then 0 else e.index) < e.records.length := by
    cases all
    · simpa using hidx
    · simpa using hlen
  have hlap := useScan_expired e.records now all (if all then 0 else e.index) hs hexp
    e.records.length hlen (le_refl _) []
  have harg : ((if all then 0 else e.index) + (e.records.length - e.records.length))
      % e.records.length = (if all then 0 else e.index) := by
    rw [Nat.sub_self, Nat.add_zero, Nat.mod_eq_of_lt hs]
  rw [harg] at hlap
  unfold Entry.use
  rw [hlap]

/-- `Entry.use` in single mode when the record under the cursor is unexpired:
that record is served and the cursor advances by exactly one modulo the
record count. -/
theorem use_fresh_single (e : Entry) (now : Nat) (hidx : e.index < e.records.length)
    (hfresh : (now : ENat) < e.records[e.index].expiresAt) :
    Entry.use e false now
      = some (.single e.records[e.index].address e.records[e.index].family,
          ⟨(e.index + 1) % e.records.length, e.records⟩) := by
  obtain ⟨m, hm⟩ : ∃ m, e.records.length = m + 1 := ⟨e.records.length - 1, by omega⟩
  have hstep := useScan_fresh_step e.records now e.index hidx hfresh m []
  simp only [List.nil_append] at hstep
  unfold Entry.use
  rw [show (if (false : Bool) then 0 else e.index) = e.index from rfl]
  rw [hm] at hstep ⊢
  rw [hstep]
  rfl

/-- `Entry.use` in `all` mode with every record unexpired: the whole record
list is served in storage order and the cursor ends at 0. -/
theorem use_fresh_all (e : Entry) (now : Nat) (hne : e.records ≠ [])
    (hfresh : ∀ r ∈ e.records, (now : ENat) < r.expiresAt) :
    Entry.use e true now = some (.multi e.records, ⟨0, e.records⟩) := by
  have hlen : 0 < e.records.length := List.length_pos.mpr hne
  have hlap := useScan_fresh_all e.records now hfresh e.records.length hlen (le_refl _) []
  rw [Nat.sub_self] at hlap
  simp only [List.drop_zero, List.nil_append] at hlap
  unfold Entry.use
  simp only [reduceIte]
  rw [hlap]
  obtain ⟨i, recs⟩ := e
  cases recs with
  | nil => exact absurd rfl hne
  | cons r rest => rfl

/-- Repeated single-mode use calls on an entry whose records stay unexpired:
call `j` serves the address `j` positions past the starting cursor
(cyclically) and the cursor ends `ts.length` positions further on. -/
theorem useRun_fresh (l : List Record) :
    ∀ (ts : List Nat) (i : Nat), i < l.length →
      (∀ t ∈ ts, ∀ r ∈ l, (t : ENat) < r.expiresAt) →
      useRun ⟨i, l⟩ ts
        = some ((List.range ts.length).map (addrAt l i),
            ⟨(i + ts.length) % l.length, l⟩) := by
  intro ts
  induction ts with
  | nil =>
    intro i hi hf
    simp [useRun, Nat.mod_eq_of_lt hi]
  | cons t ts ih =>
    intro i hi hf
    have hlen : 0 < l.length := by omega
    have hfr : (t : ENat) < l[i].expiresAt :=
      hf t (by simp) _ (List.getElem_mem hi)
    have h1 := use_fresh_single ⟨i, l⟩ t hi hfr
    have h2 := ih ((i + 1) % l.length) (Nat.mod_lt _ hlen)
      (fun t2 ht2 => hf t2 (List.mem_cons_of_mem _ ht2))
    dsimp only at h1
    rw [useRun, h1]
    dsimp only
    rw [h2]
    have hidx : ((i + 1) % l.length + ts.length) % l.length
        = (i + (ts.length + 1)) % l.length := by
      rw [Nat.mod_add_mod]
      congr 1
      omega
    have hhead : l[i].address = addrAt l i 0 := by
      rw [addrAt, Nat.add_zero, Nat.mod_eq_of_lt hi, List.getD_eq_getElem l defaultRecord hi]
    have htail : (List.range ts.length).map (addrAt l ((i + 1) % l.length))
        = (List.range ts.length).map (fun j => addrAt l i (j + 1)) := by
      apply List.map_congr_left
      intro j hj
      rw [addrAt, addrAt, Nat.mod_add_mod]
      have harith : i + 1 + j = i + (j + 1) := by omega
      rw [harith]
    rw [hidx, hhead, htail]
    dsimp only
    simp only [List.length_cons]
    rw [List.range_succ_eq_map, List.map_cons, List.map_map]
    rfl

/-- One cyclic pass of addresses, starting anywhere, is the address list of
the rotated record list. -/
theorem range_addrAt_eq_rotate (l : List Record) (i : Nat) (hi : i < l.length) :
    (List.range l.length).map (addrAt l i) = (l.rotate i).map Record.address := by
  apply List.ext_getElem
  · simp
  · intro j hj hj2
    have hjl : j < l.length := by simpa using hj
    have hmod : (j + i) % l.length < l.length := Nat.mod_lt _ (by omega)
    have hcomm : i + j = j + i := Nat.add_comm i j
    rw [List.getElem_map, List.getElem_range, List.getElem_map, List.getElem_rotate]
    rw [addrAt, hcomm, List.getD_eq_getElem l defaultRecord hmod]

/-! ### Cache lemmas -/

/-- `Map.set` then `Map.get` of the same key. -/
theorem cacheFind_set_self (c : Cache) (k : String) (s : Slot) :
    cacheFind (cacheSet c k s) k = some s := by
  induction c with
  | nil => simp [cacheSet, cacheFind]
  | cons p rest ih =>
    obtain ⟨k2, s2⟩ := p
    by_cases h : k2 = k
    · simp [cacheSet, cacheFind, h]
    · simp [cacheSet, cacheFind, h, ih]

/-- The retry schedule always has one timeout per attempt. -/
theorem retrySchedule_length : ∀ (n t : Nat) (incr : Bool),
    (retrySchedule t incr n).length = n := by
  intro n
  induction n with
  | zero => intro t incr; rfl
  | succ m ih =>
    intro t incr
    simp [retrySchedule, ih]

/-- With incremental timeouts the `k`-th (0-based) attempt times out after
`t * 2 ^ k`. -/
theorem retrySchedule_getElem : ∀ (n k t : Nat), k < n →
    (retrySchedule t true n)[k]? = some (t * 2 ^ k) := by
  intro n
  induction n with
  | zero => intro k t h; omega
  | succ m ih =>
    intro k t hk
    cases k with
    | zero => simp [retrySchedule]
    | succ k2 =>
      simp only [retrySchedule, List.getElem?_cons_succ, reduceIte]
      rw [ih k2 (2 * t) (by omega)]
      congr 1
      ring

/-! ### Claim theorems -/

/-- C5: for an entry with `N` records, all unexpired at the times they are
used, `N` consecutive single-result (`!all`) `use` calls return the records'
addresses in cyclic order starting at the cursor — a permutation of the
entry's address list, so every address is served exactly once before any
could repeat (round-robin fairness). -/
theorem roundRobin_fairness (e : Entry) (ts : List Nat)
    (hlen : ts.length = e.records.length)
    (hidx : e.index < e.records.length)
    (hfresh : ∀ t ∈ ts, ∀ r ∈ e.records, (t : ENat) < r.expiresAt) :
    ∃ e2, useRun e ts
        = some ((e.records.rotate e.index).map Record.address, e2)
      ∧ ((e.records.rotate e.index).map Record.address).Perm
          (e.records.map Record.address) := by
  obtain ⟨i, l⟩ := e
  have h := useRun_fresh l ts i hidx hfresh
  rw [hlen, range_addrAt_eq_rotate l i hidx] at h
  exact ⟨_, h, (List.rotate_perm l i).map _⟩

/-- Witness for C5 at a concrete two-record entry used twice. -/
theorem roundRobin_fairness_witness :
    ∃ e2, useRun ⟨0, [⟨"a", ⊤, 4⟩, ⟨"b", ⊤, 4⟩]⟩ [5, 6]
        = some ((([⟨"a", ⊤, 4⟩, ⟨"b", ⊤, 4⟩] : List Record).rotate 0).map
            Record.address, e2)
      ∧ ((([⟨"a", ⊤, 4⟩, ⟨"b", ⊤, 4⟩] : List Record).rotate 0).map
            Record.address).Perm
          (([⟨"a", ⊤, 4⟩, ⟨"b", ⊤, 4⟩] : List Record).map Record.address) :=
  roundRobin_fairness ⟨0, [⟨"a", ⊤, 4⟩, ⟨"b", ⊤, 4⟩]⟩ [5, 6] rfl (by decide)
    (by decide)

/-- C6: with `incrementalTimeout` enabled and an upstream that never
responds, `_resolve` makes exactly `retries` attempts, the `k`-th (0-based)
attempt using timeout `timeout * 2 ^ k` — so the final attempt's timeout is
`timeout * 2 ^ (retries - 1)` — after which the call fails with the timeout
error `'DNS query timed out'`. -/
theorem resolve_timeout_escalation (opts : Options)
    (hinc : opts.incrementalTimeout = true) (hr : 1 ≤ opts.retries) :
    (resolveNeverResponds opts).1.length = opts.retries
    ∧ (∀ k, k < opts.retries →
        (resolveNeverResponds opts).1[k]? = some (opts.timeout * 2 ^ k))
    ∧ (resolveNeverResponds opts).1.getLast?
        = some (opts.timeout * 2 ^ (opts.retries - 1))
    ∧ (resolveNeverResponds opts).2 = .error "DNS query timed out" := by
  have hlen : (resolveNeverResponds opts).1.length = opts.retries := by
    rw [resolveNeverResponds]
    exact retrySchedule_length _ _ _
  have helem : ∀ k, k < opts.retries →
      (resolveNeverResponds opts).1[k]? = some (opts.timeout * 2 ^ k) := by
    intro k hk
    rw [resolveNeverResponds]
    dsimp only
    rw [hinc]
    exact retrySchedule_getElem _ k _ hk
  refine ⟨hlen, helem, ?_, rfl⟩
  rw [List.getLast?_eq_getElem?, hlen]
  exact helem _ (by omega)

/-- Witness for C6 at the default options (8 retries, base timeout 100). -/
theorem resolve_timeout_escalation_witness :
    defaultOptions.incrementalTimeout = true ∧ 1 ≤ defaultOptions.retries
    ∧ ((resolveNeverResponds defaultOptions).1.length = defaultOptions.retries
      ∧ (∀ k, k < defaultOptions.retries →
          (resolveNeverResponds defaultOptions).1[k]?
            = some (defaultOptions.timeout * 2 ^ k))
      ∧ (resolveNeverResponds defaultOptions).1.getLast?
          = some (defaultOptions.timeout * 2 ^ (defaultOptions.retries - 1))
      ∧ (resolveNeverResponds defaultOptions).2
          = .error "DNS query timed out") :=
  ⟨rfl, by decide, resolve_timeout_escalation defaultOptions rfl (by decide)⟩

/-- C7: in the dual-stack merge, an `ENODATA` outcome behaves exactly like
an empty record list for its family; if both families are empty the call
fails with the `'No DNS query results'` error; otherwise, with `!all` and
`preferV4` and at least one IPv4 record, exactly the IPv4 records are
returned; in every other non-empty case the result is the IPv4 records
followed by the IPv6 records. -/
theorem resolveBoth_policy (p all : Bool) (a b : List RawRecord) (r : ROutcome) :
    (resolveBoth p all .errNoData r = resolveBoth p all (.ok []) r)
    ∧ (resolveBoth p all r .errNoData = resolveBoth p all r (.ok []))
    ∧ (resolveBoth p all (.ok []) (.ok []) = .error "No DNS query results")
    ∧ (a ≠ [] → resolveBoth true false (.ok a) (.ok b) = .ok a)
    ∧ (¬(all = false ∧ p = true ∧ a ≠ []) → ¬(a = [] ∧ b = []) →
        resolveBoth p all (.ok a) (.ok b) = .ok (a ++ b)) := by
  refine ⟨by cases r <;> rfl, by cases r <;> rfl, by rfl, ?_, ?_⟩
  · intro ha
    have ha2 : a.length ≠ 0 := by simpa [List.length_eq_zero] using ha
    simp [resolveBoth, wrap, ha2]
  · intro h1 h2
    have h3 : ¬(a.length = 0 ∧ b.length = 0) := by
      simpa [List.length_eq_zero] using h2
    have h4 : ¬(all = false ∧ p = true ∧ a.length ≠ 0) := by
      simpa [List.length_eq_zero] using h1
    simp only [resolveBoth, wrap]
    rw [if_neg h3, if_neg h4]

/-- Witness for C7: an IPv4-only result under `preferV4`, non-`all`. -/
theorem resolveBoth_policy_witness :
    resolveBoth true false (.ok [⟨"1.2.3.4", ⊤, 4⟩]) (.ok [])
      = .ok [⟨"1.2.3.4", ⊤, 4⟩] :=
  (resolveBoth_policy true false [⟨"1.2.3.4", ⊤, 4⟩] [] (.ok [])).2.2.2.1
    (List.cons_ne_nil _ _)

/-- C9: each stored record's expiry is
`expiresAt = now + min(maxTTL, ttl) * 1000`; a TTL the upstream did not
supply (bare string result, or a legacy runtime) is treated as infinite;
with the default unbounded `maxTTL` such a record never expires, and a
finite `maxTTL` caps every record's lifetime at `maxTTL` seconds. -/
theorem record_expiry (maxTTL : ENat) (family now : Nat) (r : RawRecord)
    (a : String) (f : Nat) (t : ENat) :
    (unifyRecord maxTTL family now r).expiresAt
        = (now : ENat) + min maxTTL r.ttl * 1000
    ∧ (mapResult false f (.plainStr a)).ttl = ⊤
    ∧ (mapResult true f (.withTTL a t)).ttl = ⊤
    ∧ defaultOptions.maxTTL = ⊤
    ∧ (maxTTL = ⊤ → r.ttl = ⊤ → ∀ t2 : Nat,
        (t2 : ENat) < (unifyRecord maxTTL family now r).expiresAt)
    ∧ (∀ m : Nat, maxTTL = (m : ENat) →
        (unifyRecord maxTTL family now r).expiresAt
          ≤ (now : ENat) + (m : ENat) * 1000) := by
  refine ⟨rfl, rfl, rfl, rfl, ?_, ?_⟩
  · intro h1 h2 t2
    have hE : (unifyRecord maxTTL family now r).expiresAt = ⊤ := by
      rw [unifyRecord]
      dsimp only
      rw [h1, h2]
      simp
    rw [hE]
    exact lt_top_iff_ne_top.mpr (ENat.coe_ne_top t2)
  · intro m hm
    rw [unifyRecord]
    dsimp only
    have hmin : min maxTTL r.ttl ≤ (m : ENat) := hm ▸ min_le_left _ _
    exact add_le_add_left (mul_le_mul_right' hmin 1000) _

/-- Witness for C9: a record with unknown TTL under the default options
never expires. -/
theorem record_expiry_witness :
    (unifyRecord ⊤ 4 5 ⟨"a", ⊤, 4⟩).expiresAt = (5 : ENat) + min ⊤ ⊤ * 1000
    ∧ (7 : ENat) < (unifyRecord ⊤ 4 5 ⟨"a", ⊤, 4⟩).expiresAt
    ∧ (unifyRecord (30 : Nat) 4 5 ⟨"a", ⊤, 4⟩).expiresAt
        ≤ (5 : ENat) + ((30 : Nat) : ENat) * 1000 :=
  ⟨(record_expiry ⊤ 4 5 ⟨"a", ⊤, 4⟩ "a" 4 ⊤).1,
   (record_expiry ⊤ 4 5 ⟨"a", ⊤, 4⟩ "a" 4 ⊤).2.2.2.2.1 rfl rfl 7,
   (record_expiry ((30 : Nat) : ENat) 4 5 ⟨"a", ⊤, 4⟩ "a" 4 ⊤).2.2.2.2.2 30 rfl⟩

/-- C10: `Entry.use` is well defined exactly on non-empty record lists: on
an empty list the scan's first array access is undefined and no amount of
fuel lets the loop complete (`use` has no terminating run), while on a
non-empty list with a valid cursor the scan completes within one full lap
(`records.length` iterations of fuel) and `use` returns — either the
`false` outcome or a single scheduled callback. -/
theorem use_welldef (now : Nat) (all : Bool) :
    (∀ start fuel idx acc, useScan [] now all start fuel idx acc = none)
    ∧ (∀ e : Entry, e.records = [] → Entry.use e all now = none)
    ∧ (∀ e : Entry, e.records ≠ [] → e.index < e.records.length →
        ∃ out, useScan e.records now all (if all then 0 else e.index)
          e.records.length (if all then 0 else e.index) [] = some out)
    ∧ (∀ e : Entry, e.records ≠ [] → e.index < e.records.length →
        ∃ r e2, Entry.use e all now = some (r, e2)) := by
  have hscan : ∀ e : Entry, e.records ≠ [] → e.index < e.records.length →
      ∃ out, useScan e.records now all (if all then 0 else e.index)
        e.records.length (if all then 0 else e.index) [] = some out := by
    intro e hne hidx
    have hlen : 0 < e.records.length := List.length_pos.mpr hne
    have hs : (if all then 0 else e.index) < e.records.length := by
      cases all
      · simpa using hidx
      · simpa using hlen
    obtain ⟨out, hout⟩ :=
      useScan_lap e.records now all _ hs e.records.length hlen (le_refl _) []
    have harg : ((if all then 0 else e.index)
        + (e.records.length - e.records.length)) % e.records.length
        = (if all then 0 else e.index) := by
      rw [Nat.sub_self, Nat.add_zero, Nat.mod_eq_of_lt hs]
    rw [harg] at hout
    exact ⟨out, hout⟩
  refine ⟨useScan_nil now all, ?_, hscan, ?_⟩
  · intro e he
    unfold Entry.use
    rw [he, useScan_nil]
  · intro e hne hidx
    obtain ⟨⟨results, idx2⟩, hout⟩ := hscan e hne hidx
    unfold Entry.use
    rw [hout]
    cases results with
    | nil => exact ⟨_, _, rfl⟩
    | cons r rest =>
      cases all
      · exact ⟨_, _, rfl⟩
      · exact ⟨_, _, rfl⟩

/-- Witness for C10: the scan is stuck on the empty entry at any fuel, and
completes on a one-record entry. -/
theorem use_welldef_witness :
    useScan [] 3 false 0 5 0 [] = none
    ∧ Entry.use ⟨0, []⟩ false 3 = none
    ∧ (∃ r e2, Entry.use ⟨0, [⟨"a", ⊤, 4⟩]⟩ false 3 = some (r, e2)) :=
  ⟨(use_welldef 3 false).1 0 5 0 [],
   (use_welldef 3 false).2.1 ⟨0, []⟩ rfl,
   (use_welldef 3 false).2.2.2 ⟨0, [⟨"a", ⊤, 4⟩]⟩ (by decide) (by decide)⟩

/-- C8 counterexample: a single-result `use` call on a two-record entry
whose cursor record is expired skips the expired record — the cursor moves
from 0 to 0 (two steps, ≡ 0 mod 2), not to `(0 + 1) % 2 = 1` as the claim's
"advanced by exactly one position" requires for every entry. -/
theorem cursor_advance_counterexample :
    Entry.use ⟨0, [⟨"a", 0, 4⟩, ⟨"b", ⊤, 4⟩]⟩ false 10
      = some (.single "b" 4, ⟨0, [⟨"a", 0, 4⟩, ⟨"b", ⊤, 4⟩]⟩)
    ∧ (0 + 1) % 2 = 1 ∧ (1 : Nat) ≠ 0 := by
  refine ⟨by decide, rfl, by decide⟩

/-- C8 (amended): for every entry whose record under the cursor is unexpired
at the time of the call (in particular whenever all records are unexpired),
a single-result (`!all`) `use` call advances the cursor by exactly one
position modulo the record count and leaves the record list unchanged, so
the next call on the returned entry starts from that advanced cursor. -/
theorem cursor_advance_one (e : Entry) (now : Nat)
    (hidx : e.index < e.records.length)
    (hfresh : (now : ENat) < e.records[e.index].expiresAt) :
    ∃ r, Entry.use e false now
        = some (r, ⟨(e.index + 1) % e.records.length, e.records⟩) :=
  ⟨_, use_fresh_single e now hidx hfresh⟩

/-- Witness for the amended C8 on a concrete two-record entry. -/
theorem cursor_advance_one_witness :
    ∃ r, Entry.use ⟨0, [⟨"a", ⊤, 4⟩, ⟨"b", ⊤, 4⟩]⟩ false 10
        = some (r, ⟨(0 + 1) % 2, [⟨"a", ⊤, 4⟩, ⟨"b", ⊤, 4⟩]⟩) :=
  cursor_advance_one ⟨0, [⟨"a", ⊤, 4⟩, ⟨"b", ⊤, 4⟩]⟩ 10 (by decide) (by decide)

/-- C3 counterexample: a lookup with the unsupported numeric family 5 does
delegate to the plain fallback lookup, but the cache is not left untouched —
the call has already installed an in-flight marker for its key; and a
non-numeric family value coerces (`>>> 0`) to 0 and dispatches the
dual-stack resolution instead of being delegated to the fallback. -/
theorem family_bypass_counterexample :
    lookup [] "h" (.bare (.num 5)) 1 0
      = some ([("h:5::false", .inflight [])], .fallbackCall)
    ∧ ([("h:5::false", Slot.inflight [])] : Cache) ≠ ([] : Cache)
    ∧ lookup [] "h" (.obj .nonNum false) 1 0
      = some ([("h:0::false", .inflight [])], .dispatch 0)
    ∧ LookupAction.dispatch 0 ≠ .fallbackCall := by
  refine ⟨by decide, by decide, by decide, by decide⟩

/-- C3 (amended): for every lookup whose coerced family (`>>> 0`; any
non-numeric value coerces to 0 and takes the dual-stack path) is neither 0,
4 nor 6 and whose key is not yet occupied, the call is delegated to the
plain fallback lookup, but the cache is not left untouched: the call first
installs an in-flight marker for its key, and never removes it. -/
theorem lookup_unsupported_family (cache : Cache) (hostname : String)
    (options : JSOptions) (caller now : Nat) (family : Nat) (all : Bool)
    (hpa : parseOpts options = (family, all))
    (hunsup : ¬(family = 0 ∨ family = 4 ∨ family = 6))
    (habs : cacheFind cache (mkKey hostname family all) = none) :
    lookup cache hostname options caller now
      = some (cacheSet cache (mkKey hostname family all) (.inflight []),
          .fallbackCall)
    ∧ cacheFind (cacheSet cache (mkKey hostname family all) (.inflight []))
        (mkKey hostname family all) = some (.inflight []) := by
  refine ⟨?_, cacheFind_set_self _ _ _⟩
  simp only [lookup, hpa]
  rw [habs]
  dsimp only
  rw [missPath, if_neg hunsup]

/-- Witness for the amended C3: family 5 on an empty cache. -/
theorem lookup_unsupported_family_witness :
    lookup [] "h" (.bare (.num 5)) 1 0
      = some (cacheSet [] (mkKey "h" 5 false) (.inflight []), .fallbackCall)
    ∧ cacheFind (cacheSet [] (mkKey "h" 5 false) (.inflight []))
        (mkKey "h" 5 false) = some (.inflight []) :=
  lookup_unsupported_family [] "h" (.bare (.num 5)) 1 0 5 false (by decide)
    (by decide) rfl

/-- C4: a lookup that finds a resolved entry whose records are all expired
behaves as a fresh miss within that same call: `Entry.use` reports fully
expired, the key is deleted and the miss path is synchronously re-entered —
a new in-flight marker is installed and a new resolution is dispatched — and
the call's action is that dispatch, never a serve of stale records. -/
theorem stale_entry_renewal (cache : Cache) (hostname : String)
    (options : JSOptions) (caller now : Nat) (family : Nat) (all : Bool)
    (e : Entry)
    (hpa : parseOpts options = (family, all))
    (hfind : cacheFind cache (mkKey hostname family all) = some (.resolved e))
    (hne : e.records ≠ []) (hidx : e.index < e.records.length)
    (hexp : ∀ r ∈ e.records, r.expiresAt ≤ (now : ENat))
    (hsup : family = 0 ∨ family = 4 ∨ family = 6) :
    Entry.use e all now
        = some (.expiredAll, ⟨if all then 0 else e.index, e.records⟩)
    ∧ lookup cache hostname options caller now
      = some (cacheSet (cacheDelete cache (mkKey hostname family all))
            (mkKey hostname family all) (.inflight []), .dispatch family)
    ∧ cacheFind (cacheSet (cacheDelete cache (mkKey hostname family all))
          (mkKey hostname family all) (.inflight []))
        (mkKey hostname family all) = some (.inflight []) := by
  have huse := use_expired e all now hne hidx hexp
  refine ⟨huse, ?_, cacheFind_set_self _ _ _⟩
  simp only [lookup, hpa]
  rw [hfind]
  dsimp only
  rw [huse]
  dsimp only
  rw [missPath, if_pos hsup]

/-- Witness for C4: a one-record entry, already expired, under family 4. -/
theorem stale_entry_renewal_witness :
    Entry.use ⟨0, [⟨"a", 3, 4⟩]⟩ false 9
        = some (.expiredAll, ⟨0, [⟨"a", 3, 4⟩]⟩)
    ∧ lookup [(mkKey "h" 4 false, .resolved ⟨0, [⟨"a", 3, 4⟩]⟩)] "h"
        (.bare (.num 4)) 1 9
      = some (cacheSet (cacheDelete [(mkKey "h" 4 false,
            .resolved ⟨0, [⟨"a", 3, 4⟩]⟩)] (mkKey "h" 4 false))
          (mkKey "h" 4 false) (.inflight []), .dispatch 4)
    ∧ cacheFind (cacheSet (cacheDelete [(mkKey "h" 4 false,
          .resolved ⟨0, [⟨"a", 3, 4⟩]⟩)] (mkKey "h" 4 false))
        (mkKey "h" 4 false) (.inflight [])) (mkKey "h" 4 false)
      = some (.inflight []) :=
  stale_entry_renewal [(mkKey "h" 4 false, .resolved ⟨0, [⟨"a", 3, 4⟩]⟩)] "h"
    (.bare (.num 4)) 1 9 4 false ⟨0, [⟨"a", 3, 4⟩]⟩ (by decide) (by decide)
    (by decide) (by decide) (by decide) (by decide)

/-- A finite time is strictly below itself plus any positive duration. -/
theorem enat_lt_add_right (n : Nat) (y : ENat) (hy : 0 < y) :
    (n : ENat) < (n : ENat) + y := by
  induction y using ENat.recTopCoe with
  | top =>
    rw [add_top]
    exact lt_top_iff_ne_top.mpr (ENat.coe_ne_top n)
  | coe m =>
    have hm : 0 < m := by exact_mod_cast hy
    rw [← Nat.cast_add]
    exact_mod_cast Nat.lt_add_of_pos_right hm

/-- Unification keeps addresses: every unified record's address is among the
raw addresses. -/
theorem unified_addr_mem (maxTTL : ENat) (family now : Nat)
    (rs : List RawRecord) (u : Record)
    (hu : u ∈ rs.map (unifyRecord maxTTL family now)) :
    u.address ∈ rawAddresses rs := by
  obtain ⟨r, hr, rfl⟩ := List.mem_map.mp hu
  exact List.mem_map.mpr ⟨r, hr, rfl⟩

/-- Records unified from raw records with positive effective TTL are
unexpired at the unification time. -/
theorem unified_fresh (opts : Options) (family now : Nat) (rs : List RawRecord)
    (hfresh : ∀ r ∈ rs, (0 : ENat) < min opts.maxTTL r.ttl) :
    ∀ u ∈ rs.map (unifyRecord opts.maxTTL family now),
      (now : ENat) < u.expiresAt := by
  intro u hu
  obtain ⟨r, hr, rfl⟩ := List.mem_map.mp hu
  have hx : 0 < min opts.maxTTL r.ttl * 1000 := by
    rcases (CanonicallyOrderedCommSemiring.mul_pos
        (a := min opts.maxTTL r.ttl) (b := (1000 : ENat))) |>.symm with h
    exact h.mp ⟨hfresh r hr, by decide⟩
  exact enat_lt_add_right now _ hx

/-- C1 (the code contradicts the claim): when a resolution settles with an
error, `onresult`'s early `return callback(err)` skips both the
`cache.delete(key)` and the `merged.forEach` release.  Evaluated at the
failing input — two coalesced lookups for `example.com` family 4 whose
resolution fails with the timeout error — the in-flight marker stays in the
cache (the key does not revert to absent) and the delivery list contains
only the error to the triggering caller 1; the coalesced waiter 2 is never
notified. -/
theorem error_path_keeps_marker :
    lookup [] "example.com" (.bare (.num 4)) 1 5
      = some ([("example.com:4::false", .inflight [])], .dispatch 4)
    ∧ lookup [("example.com:4::false", .inflight [])] "example.com"
        (.bare (.num 4)) 2 5
      = some ([("example.com:4::false",
            .inflight [⟨2, .bare (.num 4)⟩])], .registerWaiter)
    ∧ onresult defaultOptions
        [("example.com:4::false", .inflight [⟨2, .bare (.num 4)⟩])]
        "example.com" (.bare (.num 4)) 1 5 (.fail "DNS query timed out")
      = some ([("example.com:4::false", .inflight [⟨2, .bare (.num 4)⟩])],
          [.err 1 "DNS query timed out"]) := by
  refine ⟨by decide, by decide, by decide⟩

/-- C2: two lookups for the same key while no resolved entry is cached
coalesce onto a single upstream resolution: the first call installs the
in-flight marker and dispatches, the second call only registers a
continuation on the marker (no second dispatch), and when the single
resolution settles successfully both callers are delivered results whose
addresses all come from that resolution's records, with the entry built
from it stored in the cache. -/
theorem coalesce_single_resolution (opts : Options) (cache : Cache)
    (hostname : String) (options : JSOptions) (now c1 c2 : Nat)
    (rs : List RawRecord) (family : Nat) (all : Bool)
    (hpa : parseOpts options = (family, all))
    (hsup : family = 0 ∨ family = 4 ∨ family = 6)
    (habs : cacheFind cache (mkKey hostname family all) = none)
    (hrs : rs ≠ [])
    (hfresh : ∀ r ∈ rs, (0 : ENat) < min opts.maxTTL r.ttl) :
    lookup cache hostname options c1 now
      = some (cacheSet cache (mkKey hostname family all) (.inflight []),
          .dispatch family)
    ∧ lookup (cacheSet cache (mkKey hostname family all) (.inflight []))
        hostname options c2 now
      = some (cacheSet (cacheSet cache (mkKey hostname family all)
            (.inflight [])) (mkKey hostname family all)
            (.inflight [⟨c2, options⟩]), .registerWaiter)
    ∧ ∃ c3 r1 r2,
        onresult opts (cacheSet (cacheSet cache (mkKey hostname family all)
            (.inflight [])) (mkKey hostname family all)
            (.inflight [⟨c2, options⟩])) hostname options c1 now (.ok rs)
          = some (c3, [.ok c1 r1, .ok c2 r2])
        ∧ resultAddresses r1 ⊆ rawAddresses rs
        ∧ resultAddresses r2 ⊆ rawAddresses rs
        ∧ ∃ e3, cacheFind c3 (mkKey hostname family all) = some (.resolved e3) := by
  have hfr := unified_fresh opts family now rs hfresh
  have hne : rs.map (unifyRecord opts.maxTTL family now) ≠ [] := by
    simpa using hrs
  have hlen : 0 < (rs.map (unifyRecord opts.maxTTL family now)).length :=
    List.length_pos.mpr hne
  have hstep1 : lookup cache hostname options c1 now
      = some (cacheSet cache (mkKey hostname family all) (.inflight []),
        .dispatch family) := by
    simp only [lookup, hpa]
    rw [habs]
    dsimp only
    rw [missPath, if_pos hsup]
  have hstep2 : lookup (cacheSet cache (mkKey hostname family all)
        (.inflight [])) hostname options c2 now
      = some (cacheSet (cacheSet cache (mkKey hostname family all)
          (.inflight [])) (mkKey hostname family all)
          (.inflight [⟨c2, options⟩]), .registerWaiter) := by
    simp only [lookup, hpa]
    rw [cacheFind_set_self]
    dsimp only
    rw [List.nil_append]
  refine ⟨hstep1, hstep2, ?_⟩
  cases all with
  | true =>
    set U := rs.map (unifyRecord opts.maxTTL family now) with hU
    set K := mkKey hostname family true with hK
    have huse := use_fresh_all ⟨0, U⟩ now hne hfr
    dsimp only at huse
    set cB := cacheSet (cacheSet cache K (.inflight [])) K
      (.inflight [⟨c2, options⟩]) with hcB
    have hwfind : cacheFind cB K = some (.inflight [⟨c2, options⟩]) := by
      rw [hcB]
      exact cacheFind_set_self _ _ _
    have honres : onresult opts cB hostname options c1 now (.ok rs)
        = some (cacheSet (cacheSet cB K (.resolved ⟨0, U⟩)) K (.resolved ⟨0, U⟩),
            [.ok c1 (.multi U), .ok c2 (.multi U)]) := by
      simp only [onresult, hpa, ← hK, ← hU]
      rw [hwfind, huse]
      dsimp only [runWaiters]
      simp only [lookup, hpa, ← hK]
      rw [cacheFind_set_self]
      dsimp only
      rw [huse]
      dsimp only [actionToDelivery]
    have hs1 : resultAddresses (.multi U) ⊆ rawAddresses rs := by
      intro x hx
      simp only [resultAddresses, List.mem_map] at hx
      obtain ⟨u, hu, rfl⟩ := hx
      rw [hU] at hu
      exact unified_addr_mem opts.maxTTL family now rs u hu
    exact ⟨_, _, _, honres, hs1, hs1, ⟨_, cacheFind_set_self _ _ _⟩⟩
  | false =>
    set U := rs.map (unifyRecord opts.maxTTL family now) with hU
    set K := mkKey hostname family false with hK
    have hfr0 : (now : ENat) < U[0].expiresAt := hfr _ (List.getElem_mem hlen)
    have huse := use_fresh_single ⟨0, U⟩ now hlen hfr0
    dsimp only at huse
    have hidx2 : 1 % U.length < U.length := Nat.mod_lt _ hlen
    have hfr1 : (now : ENat) < U[1 % U.length].expiresAt :=
      hfr _ (List.getElem_mem hidx2)
    have huse2 := use_fresh_single ⟨1 % U.length, U⟩ now hidx2 hfr1
    dsimp only at huse2
    set cB := cacheSet (cacheSet cache K (.inflight [])) K
      (.inflight [⟨c2, options⟩]) with hcB
    have hwfind : cacheFind cB K = some (.inflight [⟨c2, options⟩]) := by
      rw [hcB]
      exact cacheFind_set_self _ _ _
    have honres : onresult opts cB hostname options c1 now (.ok rs)
        = some (cacheSet (cacheSet cB K (.resolved ⟨1 % U.length, U⟩)) K
              (.resolved ⟨(1 % U.length + 1) % U.length, U⟩),
            [.ok c1 (.single U[0].address U[0].family),
              .ok c2 (.single U[1 % U.length].address U[1 % U.length].family)]) := by
      simp only [onresult, hpa, ← hK, ← hU]
      rw [hwfind, huse]
      dsimp only [runWaiters]
      simp only [lookup, hpa, ← hK]
      rw [cacheFind_set_self]
      dsimp only
      rw [huse2]
      dsimp only [actionToDelivery]
    have hs1 : resultAddresses (.single U[0].address U[0].family)
        ⊆ rawAddresses rs := by
      intro x hx
      simp only [resultAddresses, List.mem_cons, List.not_mem_nil, or_false] at hx
      subst hx
      exact unified_addr_mem opts.maxTTL family now rs _ (List.getElem_mem hlen)
    have hs2 : resultAddresses (.single U[1 % U.length].address
        U[1 % U.length].family) ⊆ rawAddresses rs := by
      intro x hx
      simp only [resultAddresses, List.mem_cons, List.not_mem_nil, or_false] at hx
      subst hx
      exact unified_addr_mem opts.maxTTL family now rs _ (List.getElem_mem hidx2)
    exact ⟨_, _, _, honres, hs1, hs2, ⟨_, cacheFind_set_self _ _ _⟩⟩

/-- Witness for C2: two coalesced family-4 lookups for `h`, resolution
returning one record with infinite TTL. -/
theorem coalesce_single_resolution_witness :
    lookup [] "h" (.bare (.num 4)) 1 5
      = some (cacheSet [] (mkKey "h" 4 false) (.inflight []), .dispatch 4)
    ∧ lookup (cacheSet [] (mkKey "h" 4 false) (.inflight [])) "h"
        (.bare (.num 4)) 2 5
      = some (cacheSet (cacheSet [] (mkKey "h" 4 false) (.inflight []))
          (mkKey "h" 4 false) (.inflight [⟨2, .bare (.num 4)⟩]),
          .registerWaiter)
    ∧ ∃ c3 r1 r2,
        onresult defaultOptions (cacheSet (cacheSet [] (mkKey "h" 4 false)
            (.inflight [])) (mkKey "h" 4 false)
            (.inflight [⟨2, .bare (.num 4)⟩])) "h" (.bare (.num 4)) 1 5
            (.ok [⟨"a", ⊤, 4⟩])
          = some (c3, [.ok 1 r1, .ok 2 r2])
        ∧ resultAddresses r1 ⊆ rawAddresses [⟨"a", ⊤, 4⟩]
        ∧ resultAddresses r2 ⊆ rawAddresses [⟨"a", ⊤, 4⟩]
        ∧ ∃ e3, cacheFind c3 (mkKey "h" 4 false) = some (.resolved e3) :=
  coalesce_single_resolution defaultOptions [] "h" (.bare (.num 4)) 5 1 2
    [⟨"a", ⊤, 4⟩] 4 false (by decide) (by decide) rfl (by decide) (by decide)

end Redns
